import Mathlib

/-!
Verification development for the face-to-face signaling repository.

Shallow embedding of the signaling server (src/server/server.js) and of the
client peer-connection orchestrator (src/client/src/hooks/useSockets.ts).

Server side: the room registry is the global `rooms` map
(`Map<roomId, Map<socketId, displayName>>`); JavaScript `Map` preserves
insertion order, so it is embedded as an association list with unique keys,
with `set` updating in place and `delete` removing the entry. Socket.IO
emissions are collected into an explicit event list.

Client side: the `peersRef` map of peer sessions is embedded the same way.
The native `RTCPeerConnection` is embedded as a record tracking the
descriptions set, the tracks added and the candidates passed to
`addIceCandidate`, with fresh connections identified by an allocation
counter. The `negotiationneeded` callback of the native layer is modelled
as coalesced per synchronous batch: adding a nonempty set of tracks to a
connection whose handler is installed produces exactly one offer emission.
-/

namespace FaceToFace

/-! ## Association lists (JavaScript `Map` with insertion order) -/

/-- Lookup by key in an association list. -/
def lookupA {κ ν : Type} [DecidableEq κ] : List (κ × ν) → κ → Option ν
  | [], _ => none
  | e :: t, k => if e.1 = k then some e.2 else lookupA t k

/-- Membership test, mirroring `Map.has`. -/
def hasA {κ ν : Type} [DecidableEq κ] (l : List (κ × ν)) (k : κ) : Bool :=
  (lookupA l k).isSome

/-- `Map.set`: update the entry in place if the key exists, append otherwise. -/
def setA {κ ν : Type} [DecidableEq κ] : List (κ × ν) → κ → ν → List (κ × ν)
  | [], k, v => [(k, v)]
  | e :: t, k, v => if e.1 = k then (k, v) :: t else e :: setA t k v

/-- `Map.delete`: remove the entries with the given key. -/
def eraseA {κ ν : Type} [DecidableEq κ] (l : List (κ × ν)) (k : κ) : List (κ × ν) :=
  l.filter (fun e => e.1 ≠ k)

/-! ## Server data model (src/server/server.js) -/

abbrev SocketId := String
abbrev RoomId := String

/-- One room: mapping socketId to displayName, in insertion order. -/
abbrev Members := List (SocketId × String)

/-- The global `rooms` map: roomId to member map, in insertion order. -/
abbrev Rooms := List (RoomId × Members)

/-- JavaScript `toLowerCase()` on the ASCII range, embedded char-wise so
that it evaluates inside the kernel (`String.toLower` itself is defined by
well-founded recursion and does not reduce). -/
def jsToLower (s : String) : String := ⟨s.data.map Char.toLower⟩

/-- JavaScript `x || d` on an optional string: `undefined` and the empty
string are falsy. -/
def jsOr (v : Option String) (d : String) : String :=
  match v with
  | some s => if s = "" then d else s
  | none => d

/-- JavaScript truthiness of an optional string value. -/
def jsTruthy (v : Option String) : Bool :=
  match v with
  | some s => s ≠ ""
  | none => false

/-- The payload of a `join-room` message: either the legacy plain string
form, an object with optional `roomId` and `name` fields, or a nullish
value (handled by `payload || \x7b\x7d` in the handler). -/
inductive JoinPayload : Type
  | str (s : String)
  | obj (roomId : Option String) (name : Option String)
  | nullish
deriving DecidableEq, Repr

/-- Destructuring in the join handler:
`(typeof payload === 'string') ? \x7b roomId: payload, name: 'Guest' \x7d : payload || \x7b\x7d`,
returning the `rawRoomId` and `name` bindings. -/
def destructJoin : JoinPayload → Option String × Option String
  | .str s => (some s, some "Guest")
  | .obj r n => (r, n)
  | .nullish => (none, none)

/-- Server-side emissions. `existingUsers` is sent to one socket
(`socket.emit`); the broadcast constructors stand for
`socket.to(target).emit`, which delivers to the target room excluding the
sender; for the three relay messages the target is a connection id, whose
implicit personal room holds exactly that connection. -/
inductive SEvent : Type
  | existingUsers (tgt : SocketId) (users : List (SocketId × String))
  | userConnected (room : RoomId) (sender : SocketId) (id : SocketId) (name : String)
  | userDisconnected (room : RoomId) (sid : SocketId)
  | offerRelayed (tgt : String) (sender : SocketId) (sdp : String)
  | answerRelayed (tgt : String) (sender : SocketId) (sdp : String)
  | iceRelayed (tgt : String) (sender : SocketId) (cand : String)
deriving DecidableEq, Repr

/-- Inbound server operations: one constructor per socket handler. -/
inductive Op : Type
  | joinRoom (sid : SocketId) (p : JoinPayload)
  | offerMsg (sid : SocketId) (tgt : String) (sdp : String)
  | answerMsg (sid : SocketId) (tgt : String) (sdp : String)
  | iceMsg (sid : SocketId) (tgt : String) (cand : String)
  | leaveRoom (sid : SocketId) (raw : Option String)
  | disconnect (sid : SocketId)
deriving DecidableEq, Repr

/-- The `join-room` handler: destructure the payload, reject a falsy room id,
lowercase it, create the room if absent, snapshot the member list, insert the
caller, emit `existing-users` to the caller and `user-connected` to the room. -/
def joinRoomStep (rooms : Rooms) (sid : SocketId) (p : JoinPayload) :
    Rooms × List SEvent :=
  let rn := destructJoin p
  if jsTruthy rn.1 then
    let roomId := jsToLower (rn.1.getD "")
    let rooms1 := if hasA rooms roomId then rooms else setA rooms roomId []
    let roomMap := (lookupA rooms1 roomId).getD []
    let existing := roomMap.map (fun e => (e.1, e.2))
    let rooms2 := setA rooms1 roomId (setA roomMap sid (jsOr rn.2 "Guest"))
    (rooms2,
      [SEvent.existingUsers sid existing,
       SEvent.userConnected roomId sid sid (jsOr rn.2 "Guest")])
  else (rooms, [])

/-- The `leave-room` handler: lowercase `String(rawRoomId || '')`; if the
room exists in the registry, delete the caller from its member map and
broadcast `user-disconnected`; otherwise do nothing. The room entry itself
is never deleted. -/
def leaveRoomStep (rooms : Rooms) (sid : SocketId) (raw : Option String) :
    Rooms × List SEvent :=
  let roomId := jsToLower (raw.getD "")
  if hasA rooms roomId then
    (rooms.map (fun e => if e.1 = roomId then (e.1, eraseA e.2 sid) else e),
     [SEvent.userDisconnected roomId sid])
  else (rooms, [])

/-- The `disconnect` handler: for every room, in registry order, if the
socket is a member, delete it and broadcast `user-disconnected` to that
room. Rooms that do not contain the socket are untouched; empty rooms are
never removed. -/
def disconnectStep (rooms : Rooms) (sid : SocketId) : Rooms × List SEvent :=
  (rooms.map (fun e => if hasA e.2 sid then (e.1, eraseA e.2 sid) else e),
   rooms.filterMap
     (fun e => if hasA e.2 sid then some (SEvent.userDisconnected e.1 sid) else none))

/-- One server step: dispatch an inbound operation to its handler. The three
relay handlers never read or write the registry and emit exactly one
directed event carrying the payload plus the sender id. -/
def serverStep (rooms : Rooms) : Op → Rooms × List SEvent
  | .joinRoom sid p => joinRoomStep rooms sid p
  | .offerMsg sid tgt sdp => (rooms, [SEvent.offerRelayed tgt sid sdp])
  | .answerMsg sid tgt sdp => (rooms, [SEvent.answerRelayed tgt sid sdp])
  | .iceMsg sid tgt cand => (rooms, [SEvent.iceRelayed tgt sid cand])
  | .leaveRoom sid raw => leaveRoomStep rooms sid raw
  | .disconnect sid => disconnectStep rooms sid

/-- Run a sequence of operations from a registry state, keeping the state. -/
def runOps (rooms : Rooms) : List Op → Rooms
  | [] => rooms
  | op :: t => runOps (serverStep rooms op).1 t

/-- The member ids of a room in a registry state. -/
def memberIds (rooms : Rooms) (r : RoomId) : List SocketId :=
  ((lookupA rooms r).getD []).map Prod.fst

/-- The normalized room id a join payload lands in (meaningful when the raw
room id is truthy). -/
def joinNormRoom (p : JoinPayload) : RoomId :=
  jsToLower (((destructJoin p).1).getD "")

/-- The display name recorded and broadcast for a join payload. -/
def joinName (p : JoinPayload) : String :=
  jsOr (destructJoin p).2 "Guest"

/-- The normalized room id targeted by a leave message. -/
def leaveNormRoom (raw : Option String) : RoomId := jsToLower (raw.getD "")

/-- Whether an operation is a join by socket `x` landing in normalized room `r`. -/
def isJoinOf (op : Op) (x : SocketId) (r : RoomId) : Bool :=
  match op with
  | .joinRoom s p =>
      decide (s = x) && jsTruthy (destructJoin p).1 && decide (joinNormRoom p = r)
  | _ => false

/-! ## Client data model (src/client/src/hooks/useSockets.ts) -/

abbrev Track := String
abbrev Cand := String
abbrev Sdp := String

/-- Embedding of one native `RTCPeerConnection`: the allocation counter value
identifies the object, `hasNegotiationHandler` records whether
`onnegotiationneeded` was installed (initiator side only), the two
description flags track `setLocalDescription` / `setRemoteDescription`,
`tracks` the arguments of `addTrack` and `appliedCandidates` the candidates
passed to `addIceCandidate`, in call order. -/
structure NativeConn : Type where
  connId : Nat
  hasNegotiationHandler : Bool
  remoteDescSet : Bool
  localDescSet : Bool
  tracks : List Track
  appliedCandidates : List Cand
deriving DecidableEq, Repr

/-- Embedding of the `PeerConnection` record of `useSockets.ts`. The optional
TS fields `addedLocalTracks` and `pendingIceCandidates` are embedded with
`false` and `[]` standing for `undefined`, which matches every use in the
hook (`!x` tests and push-after-initialize). -/
structure PeerConn : Type where
  peer : NativeConn
  addedLocalTracks : Bool
  pendingIceCandidates : List Cand
  displayName : Option String
deriving DecidableEq, Repr

/-- Messages the client emits on the socket. Offers and answers are tagged
with the native connection that produced them. -/
inductive ClientMsg : Type
  | offer (tgt : SocketId) (connId : Nat)
  | answer (tgt : SocketId) (connId : Nat)
deriving DecidableEq, Repr

/-- Client orchestrator state: the `peersRef` map in insertion order, the
allocation counter for native connections, the ids of closed native
connections, the emitted messages in order, and `localStreamRef.current`. -/
structure ClientState : Type where
  peers : List (SocketId × PeerConn)
  nextConnId : Nat
  closedConnIds : List Nat
  sent : List ClientMsg
  localStream : Option (List Track)
deriving DecidableEq, Repr

/-- `createPeerConnection(userId, isInitiator)`: build a fresh native
connection, add the local tracks when a stream exists (setting
`addedLocalTracks`), store the record in the map, and install the
negotiation handler when initiator. When tracks were added and the handler
is installed, the coalesced `negotiationneeded` callback then creates an
offer, sets it as local description and emits it to `userId`. -/
def createPeerConnection (st : ClientState) (userId : SocketId)
    (isInitiator : Bool) : ClientState :=
  let tracks := st.localStream.getD []
  let conn : NativeConn :=
    { connId := st.nextConnId, hasNegotiationHandler := isInitiator,
      remoteDescSet := false, localDescSet := false,
      tracks := tracks, appliedCandidates := [] }
  let pc : PeerConn :=
    { peer := conn, addedLocalTracks := st.localStream.isSome,
      pendingIceCandidates := [], displayName := none }
  if isInitiator = true ∧ tracks ≠ [] then
    { st with
      peers := setA st.peers userId
        { pc with peer := { conn with localDescSet := true } },
      nextConnId := st.nextConnId + 1,
      sent := st.sent ++ [ClientMsg.offer userId conn.connId] }
  else
    { st with peers := setA st.peers userId pc,
              nextConnId := st.nextConnId + 1 }

/-- `handleOffer(offer, from)`: build a brand-new native connection and a
fresh `PeerConnection` record, add local tracks when available, set the
remote description from the offer, drain the pending buffer of the fresh
record (necessarily empty, since the record was just created), create an
answer, set it as local description, emit it to the sender, and store the
record under the sender id, replacing any previous record. The replaced
record's native connection is not closed. -/
def handleOffer (st : ClientState) (sdp : Sdp) (sender : SocketId) :
    ClientState :=
  let tracks := st.localStream.getD []
  let conn : NativeConn :=
    { connId := st.nextConnId, hasNegotiationHandler := false,
      remoteDescSet := false, localDescSet := false,
      tracks := tracks, appliedCandidates := [] }
  let pc : PeerConn :=
    { peer := conn, addedLocalTracks := st.localStream.isSome,
      pendingIceCandidates := [], displayName := none }
  let conn1 := { conn with remoteDescSet := true }
  let conn2 :=
    { conn1 with appliedCandidates := conn1.appliedCandidates ++ pc.pendingIceCandidates }
  let conn3 := { conn2 with localDescSet := true }
  { st with
    peers := setA st.peers sender { pc with peer := conn3, pendingIceCandidates := [] },
    nextConnId := st.nextConnId + 1,
    sent := st.sent ++ [ClientMsg.answer sender conn.connId] }

/-- The `answer` handler: for a known peer, set the remote description, then
apply every buffered pending candidate in order and clear the buffer.
Unknown senders are ignored. -/
def handleAnswer (st : ClientState) (sdp : Sdp) (sender : SocketId) :
    ClientState :=
  match lookupA st.peers sender with
  | none => st
  | some pc =>
    let conn1 := { pc.peer with remoteDescSet := true }
    let conn2 :=
      { conn1 with appliedCandidates := conn1.appliedCandidates ++ pc.pendingIceCandidates }
    { st with
      peers := setA st.peers sender { pc with peer := conn2, pendingIceCandidates := [] } }

/-- The `ice-candidate` handler: for a known peer, queue the candidate when
the remote description is not yet set, otherwise apply it immediately.
Candidates for unknown senders are discarded. -/
def handleIceCandidate (st : ClientState) (cand : Cand) (sender : SocketId) :
    ClientState :=
  match lookupA st.peers sender with
  | none => st
  | some pc =>
    if pc.peer.remoteDescSet then
      { st with
        peers := setA st.peers sender
          { pc with peer :=
            { pc.peer with appliedCandidates := pc.peer.appliedCandidates ++ [cand] } } }
    else
      { st with
        peers := setA st.peers sender
          { pc with pendingIceCandidates := pc.pendingIceCandidates ++ [cand] } }

/-- The `user-connected` handler: create a receive-only (non-initiator) peer
entry for the new member and record its display name. -/
def handleUserConnected (st : ClientState) (id : SocketId)
    (name : Option String) : ClientState :=
  let st1 := createPeerConnection st id false
  match lookupA st1.peers id with
  | none => st1
  | some pc =>
    { st1 with peers := setA st1.peers id { pc with displayName := some (jsOr name "Participant") } }

/-- One iteration of the `existing-users` handler: create an initiator peer
entry for one existing member and record its display name. -/
def handleExistingUser (st : ClientState) (id : SocketId)
    (name : Option String) : ClientState :=
  let st1 := createPeerConnection st id true
  match lookupA st1.peers id with
  | none => st1
  | some pc =>
    { st1 with peers := setA st1.peers id { pc with displayName := some (jsOr name "Participant") } }

/-- The `existing-users` handler: one initiator peer entry per listed member. -/
def handleExistingUsers (st : ClientState)
    (users : List (SocketId × Option String)) : ClientState :=
  users.foldl (fun s u => handleExistingUser s u.1 u.2) st

/-- `removePeer(userId)`: close the native connection and delete the entry;
no-op for an unknown id. -/
def removePeer (st : ClientState) (userId : SocketId) : ClientState :=
  match lookupA st.peers userId with
  | none => st
  | some pc =>
    { st with peers := eraseA st.peers userId,
              closedConnIds := st.closedConnIds ++ [pc.peer.connId] }

/-- One entry of the `addLocalTracksToAllPeers` loop: when the entry has not
yet attached local tracks, add every stream track to its native connection
and set the flag; when tracks were actually added and the negotiation
handler is installed, the coalesced `negotiationneeded` callback emits one
renegotiation offer. Entries already flagged are untouched. -/
def attachOne (stream : List Track) (e : SocketId × PeerConn) :
    (SocketId × PeerConn) × List ClientMsg :=
  if e.2.addedLocalTracks then (e, [])
  else
    let conn1 := { e.2.peer with tracks := e.2.peer.tracks ++ stream }
    if conn1.hasNegotiationHandler = true ∧ stream ≠ [] then
      ((e.1, { e.2 with peer := { conn1 with localDescSet := true },
                        addedLocalTracks := true }),
       [ClientMsg.offer e.1 conn1.connId])
    else
      ((e.1, { e.2 with peer := conn1, addedLocalTracks := true }), [])

/-- `addLocalTracksToAllPeers()`: no-op without a local stream; otherwise
walk every peer entry and attach the stream tracks to those not yet flagged. -/
def addLocalTracksToAllPeers (st : ClientState) : ClientState :=
  match st.localStream with
  | none => st
  | some stream =>
    let res := st.peers.map (attachOne stream)
    { st with peers := res.map Prod.fst,
              sent := st.sent ++ (res.map Prod.snd).flatten }

/-- Socket events delivered to the client, as dispatched in
`initializeSocket`. -/
inductive CEvent : Type
  | existingUsers (users : List (SocketId × Option String))
  | userConnected (id : SocketId) (name : Option String)
  | offerEvt (sdp : Sdp) (sender : SocketId)
  | answerEvt (sdp : Sdp) (sender : SocketId)
  | iceEvt (cand : Cand) (sender : SocketId)
  | userDisconnected (id : SocketId)
deriving DecidableEq, Repr

/-- Dispatch one socket event to its handler. -/
def clientStep (st : ClientState) : CEvent → ClientState
  | .existingUsers users => handleExistingUsers st users
  | .userConnected id name => handleUserConnected st id name
  | .offerEvt sdp sender => handleOffer st sdp sender
  | .answerEvt sdp sender => handleAnswer st sdp sender
  | .iceEvt cand sender => handleIceCandidate st cand sender
  | .userDisconnected id => removePeer st id

/-- Run a sequence of socket events. -/
def runClient (st : ClientState) : List CEvent → ClientState
  | [] => st
  | e :: t => runClient (clientStep st e) t

/-- Fresh client state with a given local stream. -/
def initialClient (stream : Option (List Track)) : ClientState :=
  { peers := [], nextConnId := 0, closedConnIds := [], sent := [],
    localStream := stream }

/-- Number of offers the client has sent to a given remote id. -/
def offersTo (msgs : List ClientMsg) (sid : SocketId) : Nat :=
  msgs.countP (fun m => match m with | .offer t _ => t = sid | _ => false)

/-! ## Association list lemmas -/

lemma lookupA_setA_self {κ ν : Type} [DecidableEq κ] (l : List (κ × ν)) (k : κ) (v : ν) :
    lookupA (setA l k v) k = some v := by
  induction l with
  | nil => simp [setA, lookupA]
  | cons e t ih =>
    by_cases h : e.1 = k
    · simp [setA, h, lookupA]
    · simp [setA, h, lookupA, ih]

lemma lookupA_setA_ne {κ ν : Type} [DecidableEq κ] (l : List (κ × ν)) (k k' : κ) (v : ν)
    (h : k' ≠ k) : lookupA (setA l k v) k' = lookupA l k' := by
  have hk : ¬ k = k' := fun hh => h hh.symm
  induction l with
  | nil => simp [setA, lookupA, hk]
  | cons e t ih =>
    by_cases he : e.1 = k
    · subst he
      simp [setA, lookupA, hk]
    · simp [setA, lookupA, he, ih]

lemma lookupA_isSome_iff {κ ν : Type} [DecidableEq κ] (l : List (κ × ν)) (k : κ) :
    (lookupA l k).isSome = true ↔ k ∈ l.map Prod.fst := by
  induction l with
  | nil => simp [lookupA]
  | cons e t ih =>
    by_cases h : e.1 = k
    · simp [lookupA, h]
    · have hk : ¬ k = e.1 := fun hh => h hh.symm
      simp [lookupA, h, ih, hk]

lemma lookupA_eraseA_self {κ ν : Type} [DecidableEq κ] (l : List (κ × ν)) (k : κ) :
    lookupA (eraseA l k) k = none := by
  induction l with
  | nil => simp [eraseA, lookupA]
  | cons e t ih =>
    by_cases h : e.1 = k
    · simpa [eraseA, h] using ih
    · simpa [eraseA, lookupA, h] using ih

lemma not_mem_keys_eraseA {κ ν : Type} [DecidableEq κ] (l : List (κ × ν)) (k : κ) :
    k ∉ (eraseA l k).map Prod.fst := by
  intro h
  have := (lookupA_isSome_iff (eraseA l k) k).2 h
  rw [lookupA_eraseA_self] at this
  simp at this

lemma eraseA_eraseA {κ ν : Type} [DecidableEq κ] (l : List (κ × ν)) (k : κ) :
    eraseA (eraseA l k) k = eraseA l k := by
  induction l with
  | nil => simp [eraseA]
  | cons e t ih =>
    by_cases h : e.1 = k
    · simp [eraseA, h]
    · simp [eraseA, h]

lemma eraseA_of_lookupA_none {κ ν : Type} [DecidableEq κ] :
    ∀ (l : List (κ × ν)) (k : κ), lookupA l k = none → eraseA l k = l
  | [], _, _ => by simp [eraseA]
  | e :: t, k, h => by
    by_cases he : e.1 = k
    · simp [lookupA, he] at h
    · have ht : lookupA t k = none := by simpa [lookupA, he] using h
      have ih := eraseA_of_lookupA_none t k ht
      simp only [eraseA] at ih ⊢
      rw [List.filter_cons, if_pos (by simp [he]), ih]

lemma mem_keys_setA {κ ν : Type} [DecidableEq κ] (l : List (κ × ν)) (k k' : κ) (v : ν)
    (h : k' ∈ (setA l k v).map Prod.fst) : k' = k ∨ k' ∈ l.map Prod.fst := by
  by_cases hk : k' = k
  · exact Or.inl hk
  · right
    have hs := (lookupA_isSome_iff (setA l k v) k').2 h
    rw [lookupA_setA_ne l k k' v hk] at hs
    exact (lookupA_isSome_iff l k').1 hs

/-! ## Server lemmas -/

lemma lookupA_leaveMap (rooms : Rooms) (ρ : RoomId) (sid : SocketId) (k : RoomId) :
    lookupA (rooms.map (fun e => if e.1 = ρ then (e.1, eraseA e.2 sid) else e)) k
      = if k = ρ then (lookupA rooms k).map (fun m => eraseA m sid) else lookupA rooms k := by
  induction rooms with
  | nil => by_cases hk : k = ρ <;> simp [lookupA, hk]
  | cons e t ih =>
    by_cases he : e.1 = ρ
    · by_cases hk : e.1 = k
      · have hkρ : k = ρ := by rw [← hk, he]
        simp [lookupA, he, hk, hkρ]
      · have hρk : ¬ ρ = k := by rw [← he]; exact hk
        simp [lookupA, he, hk, hρk, ih]
    · by_cases hk : e.1 = k
      · have hkρ : ¬ k = ρ := by rw [← hk]; exact he
        simp [lookupA, he, hk, hkρ]
      · simp [lookupA, he, hk, ih]

lemma lookupA_disconnectMap (rooms : Rooms) (sid : SocketId) (k : RoomId) :
    lookupA (rooms.map (fun e => if hasA e.2 sid then (e.1, eraseA e.2 sid) else e)) k
      = (lookupA rooms k).map (fun m => if hasA m sid then eraseA m sid else m) := by
  induction rooms with
  | nil => simp [lookupA]
  | cons e t ih =>
    by_cases hh : hasA e.2 sid
    · by_cases hk : e.1 = k
      · simp [lookupA, hh, hk]
      · simp [lookupA, hh, hk, ih]
    · by_cases hk : e.1 = k
      · simp [lookupA, hh, hk]
      · simp [lookupA, hh, hk, ih]

lemma lookupA_eq_of_mem_nodup {κ ν : Type} [DecidableEq κ] (l : List (κ × ν)) (e : κ × ν)
    (hnd : (l.map Prod.fst).Nodup) (he : e ∈ l) : lookupA l e.1 = some e.2 := by
  induction l with
  | nil => cases he
  | cons a t ih =>
    rcases List.mem_cons.1 he with h | h
    · subst h
      simp [lookupA]
    · have ha : ¬ a.1 = e.1 := by
        intro hae
        have : e.1 ∈ t.map Prod.fst := List.mem_map.2 ⟨e, h, rfl⟩
        rw [← hae] at this
        exact (List.nodup_cons.1 hnd).1 this
      simp [lookupA, ha]
      exact ih (List.nodup_cons.1 hnd).2 h

lemma joinRoomStep_eq (rooms : Rooms) (sid : SocketId) (p : JoinPayload)
    (h : jsTruthy (destructJoin p).1 = true) :
    joinRoomStep rooms sid p
      = (setA (if hasA rooms (joinNormRoom p) then rooms else setA rooms (joinNormRoom p) [])
            (joinNormRoom p)
            (setA ((lookupA rooms (joinNormRoom p)).getD []) sid (joinName p)),
         [SEvent.existingUsers sid ((lookupA rooms (joinNormRoom p)).getD []),
          SEvent.userConnected (joinNormRoom p) sid sid (joinName p)]) := by
  have hsnap :
      (lookupA (if hasA rooms (joinNormRoom p) then rooms
                else setA rooms (joinNormRoom p) []) (joinNormRoom p)).getD []
        = (lookupA rooms (joinNormRoom p)).getD [] := by
    by_cases hh : hasA rooms (joinNormRoom p)
    · simp [hh]
    · have h0 : lookupA rooms (joinNormRoom p) = none := by
        cases hl : lookupA rooms (joinNormRoom p) with
        | none => rfl
        | some m => simp [hasA, hl] at hh
      simp [hh, lookupA_setA_self, h0]
  simp only [joinRoomStep, h, if_true, joinNormRoom, joinName] at hsnap ⊢
  rw [hsnap]
  simp

lemma runOps_append (rooms : Rooms) (l₁ l₂ : List Op) :
    runOps rooms (l₁ ++ l₂) = runOps (runOps rooms l₁) l₂ := by
  induction l₁ generalizing rooms with
  | nil => simp [runOps]
  | cons op t ih => simp [runOps, ih]

lemma not_mem_step (rooms : Rooms) (op : Op) (x : SocketId) (r : RoomId)
    (hx : x ∉ memberIds rooms r) (hop : isJoinOf op x r = false) :
    x ∉ memberIds (serverStep rooms op).1 r := by
  cases op with
  | joinRoom s p =>
    by_cases hp : jsTruthy (destructJoin p).1 = true
    · rw [serverStep, joinRoomStep_eq rooms s p hp]
      by_cases hr : joinNormRoom p = r
      · subst hr
        have hs : ¬ s = x := by
          intro hsx
          rw [isJoinOf, hsx] at hop
          simp [hp] at hop
        intro hmem
        rw [memberIds, lookupA_setA_self] at hmem
        rcases mem_keys_setA _ _ _ _ hmem with h1 | h1
        · exact hs (by rw [h1])
        · exact hx (by rw [memberIds]; exact h1)
      · intro hmem
        rw [memberIds, lookupA_setA_ne _ _ _ _ (fun hh => hr hh.symm)] at hmem
        by_cases hh : hasA rooms (joinNormRoom p)
        · rw [if_pos hh] at hmem
          exact hx hmem
        · rw [if_neg hh, lookupA_setA_ne _ _ _ _ (fun hh2 => hr hh2.symm)] at hmem
          exact hx hmem
    · have hp' : jsTruthy (destructJoin p).1 = false := by
        cases hb : jsTruthy (destructJoin p).1
        · rfl
        · exact absurd hb hp
      simpa [serverStep, joinRoomStep, hp'] using hx
  | offerMsg s tgt sdp => simpa [serverStep] using hx
  | answerMsg s tgt sdp => simpa [serverStep] using hx
  | iceMsg s tgt cand => simpa [serverStep] using hx
  | leaveRoom s raw =>
    intro hmem
    rw [serverStep, leaveRoomStep] at hmem
    by_cases hh : hasA rooms (jsToLower (raw.getD ""))
    · rw [if_pos hh] at hmem
      rw [memberIds, lookupA_leaveMap] at hmem
      by_cases hr : r = jsToLower (raw.getD "")
      · rw [if_pos hr] at hmem
        cases hl : lookupA rooms r with
        | none => rw [hl] at hmem; simp at hmem
        | some m =>
          rw [hl] at hmem
          simp only [Option.map_some', Option.getD_some] at hmem
          rcases List.mem_map.1 hmem with ⟨e, he, hex⟩
          have : e ∈ m := List.mem_filter.1 he |>.1
          exact hx (by rw [memberIds, hl]; exact List.mem_map.2 ⟨e, this, hex⟩)
      · rw [if_neg hr] at hmem
        exact hx hmem
    · rw [if_neg hh] at hmem
      exact hx hmem
  | disconnect s =>
    intro hmem
    rw [serverStep, disconnectStep] at hmem
    rw [memberIds, lookupA_disconnectMap] at hmem
    cases hl : lookupA rooms r with
    | none => rw [hl] at hmem; simp at hmem
    | some m =>
      rw [hl] at hmem
      simp only [Option.map_some', Option.getD_some] at hmem
      by_cases hh : hasA m s
      · rw [if_pos hh] at hmem
        rcases List.mem_map.1 hmem with ⟨e, he, hex⟩
        have : e ∈ m := List.mem_filter.1 he |>.1
        exact hx (by rw [memberIds, hl]; exact List.mem_map.2 ⟨e, this, hex⟩)
      · rw [if_neg hh] at hmem
        exact hx (by rw [memberIds, hl]; exact hmem)

lemma not_mem_runOps (rooms : Rooms) (ops : List Op) (x : SocketId) (r : RoomId)
    (hx : x ∉ memberIds rooms r) (hops : ∀ op ∈ ops, isJoinOf op x r = false) :
    x ∉ memberIds (runOps rooms ops) r := by
  induction ops generalizing rooms with
  | nil => simpa [runOps] using hx
  | cons op t ih =>
    rw [runOps]
    exact ih _ (not_mem_step rooms op x r hx (hops op (by simp)))
      (fun o ho => hops o (by simp [ho]))

lemma leave_removes (rooms : Rooms) (x : SocketId) (raw : Option String) :
    x ∉ memberIds (serverStep rooms (Op.leaveRoom x raw)).1 (leaveNormRoom raw) := by
  intro hmem
  rw [serverStep, leaveRoomStep, leaveNormRoom] at hmem
  by_cases hh : hasA rooms (jsToLower (raw.getD ""))
  · rw [if_pos hh] at hmem
    rw [memberIds, lookupA_leaveMap, if_pos rfl] at hmem
    cases hl : lookupA rooms (jsToLower (raw.getD "")) with
    | none => rw [hl] at hmem; simp at hmem
    | some m =>
      rw [hl] at hmem
      simp only [Option.map_some', Option.getD_some] at hmem
      exact not_mem_keys_eraseA m x hmem
  · rw [if_neg hh] at hmem
    have h0 : lookupA rooms (jsToLower (raw.getD "")) = none := by
      cases hl : lookupA rooms (jsToLower (raw.getD "")) with
      | none => rfl
      | some m => simp [hasA, hl] at hh
    rw [memberIds, h0] at hmem
    simp at hmem

lemma keys_leaveMap (rooms : Rooms) (ρ : RoomId) (sid : SocketId) :
    (rooms.map (fun e => if e.1 = ρ then (e.1, eraseA e.2 sid) else e)).map Prod.fst
      = rooms.map Prod.fst := by
  rw [List.map_map]
  apply List.map_congr_left
  intro e _
  by_cases h : e.1 = ρ <;> simp [Function.comp, h]

lemma keys_disconnectMap (rooms : Rooms) (sid : SocketId) :
    (rooms.map (fun e => if hasA e.2 sid then (e.1, eraseA e.2 sid) else e)).map Prod.fst
      = rooms.map Prod.fst := by
  rw [List.map_map]
  apply List.map_congr_left
  intro e _
  by_cases h : hasA e.2 sid <;> simp [Function.comp, h]

lemma leaveMap_idem (rooms : Rooms) (ρ : RoomId) (sid : SocketId) :
    ((rooms.map (fun e => if e.1 = ρ then (e.1, eraseA e.2 sid) else e)).map
        (fun e => if e.1 = ρ then (e.1, eraseA e.2 sid) else e))
      = rooms.map (fun e => if e.1 = ρ then (e.1, eraseA e.2 sid) else e) := by
  rw [List.map_map]
  apply List.map_congr_left
  intro e _
  by_cases h : e.1 = ρ <;> simp [Function.comp, h, eraseA_eraseA]

lemma hasA_leaveMap (rooms : Rooms) (ρ : RoomId) (sid : SocketId) (k : RoomId) :
    hasA (rooms.map (fun e => if e.1 = ρ then (e.1, eraseA e.2 sid) else e)) k
      = hasA rooms k := by
  rw [hasA, hasA, lookupA_leaveMap]
  by_cases h : k = ρ
  · rw [if_pos h]
    cases lookupA rooms k <;> simp
  · rw [if_neg h]

/-! ## Server theorems -/

/-- Claim C4, counterexample: after `A` joins room `r` and then leaves it,
the registry still holds an entry for `r` with an empty member map — the
room is not deleted, contradicting the claim that the registry never
retains an entry for a room with an empty member set. -/
theorem c4_counterexample_empty_room_retained :
    runOps [] [Op.joinRoom "A" (JoinPayload.obj (some "r") (some "n")),
               Op.leaveRoom "A" (some "r")] = [("r", [])]
    ∧ hasA (runOps [] [Op.joinRoom "A" (JoinPayload.obj (some "r") (some "n")),
               Op.leaveRoom "A" (some "r")]) "r" = true := by
  exact ⟨by decide, by decide⟩

/-- Claim C4 (amended): rooms are never deleted from the registry: an
explicit `leave-room` and a `disconnect` both leave the list of registry
room ids exactly unchanged; in particular a room whose last member leaves
is retained, with an empty member map. -/
theorem c4_amended_leave_never_deletes_room (rooms : Rooms) (sid : SocketId)
    (raw : Option String) :
    ((leaveRoomStep rooms sid raw).1).map Prod.fst = rooms.map Prod.fst
    ∧ ((disconnectStep rooms sid).1).map Prod.fst = rooms.map Prod.fst := by
  constructor
  · rw [leaveRoomStep]
    by_cases hh : hasA rooms (jsToLower (raw.getD ""))
    · simpa [hh] using keys_leaveMap rooms (jsToLower (raw.getD "")) sid
    · simp [hh]
  · exact keys_disconnectMap rooms sid

/-- Claim C6: on the registry state, `leave-room` is idempotent (a second
identical leave gives the identical registry) and a leave for an absent
room, or for an absent member entry of an existing room, leaves the
registry unchanged. The member-map reading uses unique room keys, which
every reachable registry satisfies. -/
theorem c6_leave_idempotent_registry_noop (rooms : Rooms) (sid : SocketId)
    (raw : Option String) :
    (leaveRoomStep (leaveRoomStep rooms sid raw).1 sid raw).1
        = (leaveRoomStep rooms sid raw).1
    ∧ (hasA rooms (leaveNormRoom raw) = false → (leaveRoomStep rooms sid raw).1 = rooms)
    ∧ ((rooms.map Prod.fst).Nodup →
        lookupA ((lookupA rooms (leaveNormRoom raw)).getD []) sid = none →
        (leaveRoomStep rooms sid raw).1 = rooms) := by
  refine ⟨?_, ?_, ?_⟩
  · by_cases hh : hasA rooms (jsToLower (raw.getD ""))
    · have h1 : (leaveRoomStep rooms sid raw).1
          = rooms.map (fun e => if e.1 = jsToLower (raw.getD "") then (e.1, eraseA e.2 sid) else e) := by
        simp [leaveRoomStep, hh]
      rw [h1]
      have hh2 : hasA (rooms.map
          (fun e => if e.1 = jsToLower (raw.getD "") then (e.1, eraseA e.2 sid) else e))
          (jsToLower (raw.getD "")) = true := by
        rw [hasA_leaveMap]
        exact hh
      have h2 : (leaveRoomStep (rooms.map
          (fun e => if e.1 = jsToLower (raw.getD "") then (e.1, eraseA e.2 sid) else e)) sid raw).1
          = (rooms.map
              (fun e => if e.1 = jsToLower (raw.getD "") then (e.1, eraseA e.2 sid) else e)).map
              (fun e => if e.1 = jsToLower (raw.getD "") then (e.1, eraseA e.2 sid) else e) := by
        simp only [leaveRoomStep, hh2, if_true]
      rw [h2, leaveMap_idem]
    · have h1 : (leaveRoomStep rooms sid raw).1 = rooms := by simp [leaveRoomStep, hh]
      rw [h1]
      exact h1
  · intro hh
    rw [leaveNormRoom] at hh
    simp [leaveRoomStep, hh]
  · intro hnd hent
    rw [leaveNormRoom] at hent
    rw [leaveRoomStep]
    by_cases hh : hasA rooms (jsToLower (raw.getD ""))
    · rw [if_pos hh]
      have hmain : rooms.map
          (fun e => if e.1 = jsToLower (raw.getD "") then (e.1, eraseA e.2 sid) else e) = rooms := by
        have : ∀ e ∈ rooms,
            (if e.1 = jsToLower (raw.getD "") then (e.1, eraseA e.2 sid) else e) = e := by
          intro e he
          by_cases hk : e.1 = jsToLower (raw.getD "")
          · rw [if_pos hk]
            have hle : lookupA rooms e.1 = some e.2 := lookupA_eq_of_mem_nodup rooms e hnd he
            rw [hk] at hle
            rw [hle] at hent
            simp only [Option.getD_some] at hent
            rw [eraseA_of_lookupA_none e.2 sid hent]
          · rw [if_neg hk]
        calc rooms.map (fun e => if e.1 = jsToLower (raw.getD "") then (e.1, eraseA e.2 sid) else e)
            = rooms.map id := List.map_congr_left this
          _ = rooms := List.map_id rooms
      rw [hmain]
    · rw [if_neg hh]

/-- Claim C7: the three signaling relays are pure: each forwards the
payload unmodified, adding only the sender id, as a single directed
emission to the `to` target, and leaves the registry untouched. -/
theorem c7_relay_forwards_unmodified_to_recipient_only (rooms : Rooms)
    (sender : SocketId) (tgt sdp cand : String) :
    serverStep rooms (Op.offerMsg sender tgt sdp)
        = (rooms, [SEvent.offerRelayed tgt sender sdp])
    ∧ serverStep rooms (Op.answerMsg sender tgt sdp)
        = (rooms, [SEvent.answerRelayed tgt sender sdp])
    ∧ serverStep rooms (Op.iceMsg sender tgt cand)
        = (rooms, [SEvent.iceRelayed tgt sender cand]) :=
  ⟨rfl, rfl, rfl⟩

/-- Claim C8: a join whose room id is empty or absent (legacy empty string,
object without or with an empty `roomId`, nullish payload) is a silent
no-op: the registry, including every other room, is unchanged and no event
is emitted. -/
theorem c8_join_empty_roomid_silent_noop (rooms : Rooms) (sid : SocketId)
    (n : Option String) :
    joinRoomStep rooms sid (JoinPayload.str "") = (rooms, [])
    ∧ joinRoomStep rooms sid (JoinPayload.obj none n) = (rooms, [])
    ∧ joinRoomStep rooms sid (JoinPayload.obj (some "") n) = (rooms, [])
    ∧ joinRoomStep rooms sid JoinPayload.nullish = (rooms, []) := by
  refine ⟨?_, ?_, ?_, ?_⟩ <;> simp [joinRoomStep, destructJoin, jsTruthy]

/-- Claim C10: a legacy string join payload, and an object payload without
a display name, both record the member under the name `Guest` in the room
map and broadcast `user-connected` with the name `Guest`. -/
theorem c10_missing_name_defaults_to_guest (rooms : Rooms) (sid : SocketId)
    (r : String) (hr : r ≠ "") :
    (joinRoomStep rooms sid (JoinPayload.str r)).2
      = [SEvent.existingUsers sid ((lookupA rooms (jsToLower r)).getD []),
         SEvent.userConnected (jsToLower r) sid sid "Guest"]
    ∧ lookupA ((lookupA (joinRoomStep rooms sid (JoinPayload.str r)).1 (jsToLower r)).getD []) sid
        = some "Guest"
    ∧ (joinRoomStep rooms sid (JoinPayload.obj (some r) none)).2
      = [SEvent.existingUsers sid ((lookupA rooms (jsToLower r)).getD []),
         SEvent.userConnected (jsToLower r) sid sid "Guest"]
    ∧ lookupA ((lookupA (joinRoomStep rooms sid (JoinPayload.obj (some r) none)).1 (jsToLower r)).getD []) sid
        = some "Guest" := by
  have htr : jsTruthy (destructJoin (JoinPayload.str r)).1 = true := by
    simp [destructJoin, jsTruthy, hr]
  have hto : jsTruthy (destructJoin (JoinPayload.obj (some r) none)).1 = true := by
    simp [destructJoin, jsTruthy, hr]
  have hns : joinName (JoinPayload.str r) = "Guest" := by
    simp [joinName, destructJoin, jsOr]
  have hno : joinName (JoinPayload.obj (some r) none) = "Guest" := by
    simp [joinName, destructJoin, jsOr]
  have hrs : joinNormRoom (JoinPayload.str r) = jsToLower r := by
    simp [joinNormRoom, destructJoin]
  have hro : joinNormRoom (JoinPayload.obj (some r) none) = jsToLower r := by
    simp [joinNormRoom, destructJoin]
  refine ⟨?_, ?_, ?_, ?_⟩
  · rw [joinRoomStep_eq rooms sid _ htr, hns, hrs]
  · rw [joinRoomStep_eq rooms sid _ htr, hns, hrs]
    simp only []
    rw [lookupA_setA_self, Option.getD_some, lookupA_setA_self]
  · rw [joinRoomStep_eq rooms sid _ hto, hno, hro]
  · rw [joinRoomStep_eq rooms sid _ hto, hno, hro]
    simp only []
    rw [lookupA_setA_self, Option.getD_some, lookupA_setA_self]

/-- Claim C2, counterexample: the very same socket `A` joining room `r`
twice in a row (no Leave in between) receives on the second join an
existing-members list that contains its own connection id `A` — the claim
that the list never contains the joiner's own id fails on repeated joins. -/
theorem c2_counterexample_rejoin_sees_self :
    (joinRoomStep (runOps [] [Op.joinRoom "A" (JoinPayload.obj (some "r") (some "n"))])
        "A" (JoinPayload.obj (some "r") (some "n"))).2
      = [SEvent.existingUsers "A" [("A", "n")],
         SEvent.userConnected "r" "A" "A" "n"] := by decide

/-- Claim C2 (amended): for any operation sequence, the existing-members
list returned to a joiner is exactly the pre-insertion snapshot of the
room; provided the joiner is not already a member of the room (barring a
repeated join without an intervening leave), the list does not contain the
joiner's own id; and it never contains an id whose leave for that room was
already processed and not followed by a later join of that id into the
room. -/
theorem c2_amended_snapshot_excludes_left_and_self (start mid : List Op)
    (x sid : SocketId) (rawRoom : Option String) (p : JoinPayload)
    (hp : jsTruthy (destructJoin p).1 = true)
    (hroom : joinNormRoom p = leaveNormRoom rawRoom)
    (hmid : ∀ op ∈ mid, isJoinOf op x (leaveNormRoom rawRoom) = false)
    (hself : sid ∉ memberIds (runOps [] (start ++ Op.leaveRoom x rawRoom :: mid))
        (leaveNormRoom rawRoom)) :
    (joinRoomStep (runOps [] (start ++ Op.leaveRoom x rawRoom :: mid)) sid p).2
      = [SEvent.existingUsers sid
           ((lookupA (runOps [] (start ++ Op.leaveRoom x rawRoom :: mid))
               (leaveNormRoom rawRoom)).getD []),
         SEvent.userConnected (leaveNormRoom rawRoom) sid sid (joinName p)]
    ∧ sid ∉ ((lookupA (runOps [] (start ++ Op.leaveRoom x rawRoom :: mid))
          (leaveNormRoom rawRoom)).getD []).map Prod.fst
    ∧ x ∉ ((lookupA (runOps [] (start ++ Op.leaveRoom x rawRoom :: mid))
          (leaveNormRoom rawRoom)).getD []).map Prod.fst := by
  have hxgone : x ∉ memberIds (runOps [] (start ++ Op.leaveRoom x rawRoom :: mid))
      (leaveNormRoom rawRoom) := by
    have hsplit : runOps [] (start ++ Op.leaveRoom x rawRoom :: mid)
        = runOps (runOps (runOps [] start) [Op.leaveRoom x rawRoom]) mid := by
      rw [runOps_append]
      have : (Op.leaveRoom x rawRoom :: mid) = [Op.leaveRoom x rawRoom] ++ mid := rfl
      rw [this, runOps_append]
    rw [hsplit]
    apply not_mem_runOps _ _ _ _ _ hmid
    have : runOps (runOps [] start) [Op.leaveRoom x rawRoom]
        = (serverStep (runOps [] start) (Op.leaveRoom x rawRoom)).1 := by
      simp [runOps]
    rw [this]
    exact leave_removes (runOps [] start) x rawRoom
  refine ⟨?_, ?_, ?_⟩
  · rw [joinRoomStep_eq _ sid p hp, hroom]
  · exact hself
  · exact hxgone

/-- Claim C2 witness: `A` and `B` join room `r`, `B` leaves, then `C`
joins: the list returned to `C` contains `A` only — neither `C` itself nor
the departed `B`. -/
theorem c2_amended_snapshot_witness :
    (joinRoomStep (runOps [] [Op.joinRoom "A" (JoinPayload.obj (some "r") (some "na")),
        Op.joinRoom "B" (JoinPayload.obj (some "r") (some "nb")),
        Op.leaveRoom "B" (some "r")])
        "C" (JoinPayload.obj (some "r") (some "nc"))).2
      = [SEvent.existingUsers "C" [("A", "na")],
         SEvent.userConnected "r" "C" "C" "nc"]
    ∧ "C" ∉ (([("A", "na")] : Members).map Prod.fst)
    ∧ "B" ∉ (([("A", "na")] : Members).map Prod.fst) := by
  have h := c2_amended_snapshot_excludes_left_and_self
    [Op.joinRoom "A" (JoinPayload.obj (some "r") (some "na")),
     Op.joinRoom "B" (JoinPayload.obj (some "r") (some "nb"))] []
    "B" "C" (some "r") (JoinPayload.obj (some "r") (some "nc"))
    (by decide) (by decide) (by intro op hop; cases hop) (by decide)
  refine ⟨?_, by decide, by decide⟩
  have h1 := h.1
  simpa using h1

/-- Claim C5: a disconnect synthesizes one leave per room: it emits exactly
one `user-disconnected` event, carrying the dropped socket id, to each room
the socket was a member of, in registry order; the socket's member entry is
removed from every room; and a socket that is a member of no room changes
nothing and emits nothing. -/
theorem c5_disconnect_synthesizes_leave (rooms : Rooms) (sid : SocketId) :
    (disconnectStep rooms sid).2
      = (rooms.filter (fun e => hasA e.2 sid)).map
          (fun e => SEvent.userDisconnected e.1 sid)
    ∧ (∀ r, sid ∉ memberIds (disconnectStep rooms sid).1 r)
    ∧ ((∀ e ∈ rooms, hasA e.2 sid = false) → disconnectStep rooms sid = (rooms, [])) := by
  have hevents : ∀ l : Rooms,
      l.filterMap (fun e => if hasA e.2 sid then some (SEvent.userDisconnected e.1 sid) else none)
        = (l.filter (fun e => hasA e.2 sid)).map (fun e => SEvent.userDisconnected e.1 sid) := by
    intro l
    induction l with
    | nil => simp
    | cons e t ih =>
      by_cases hh : hasA e.2 sid
      · simp [List.filterMap_cons, List.filter_cons, hh, ih]
      · simp [List.filterMap_cons, List.filter_cons, hh, ih]
  refine ⟨?_, ?_, ?_⟩
  · rw [disconnectStep]
    exact hevents rooms
  · intro r hmem
    rw [disconnectStep] at hmem
    rw [memberIds, lookupA_disconnectMap] at hmem
    cases hl : lookupA rooms r with
    | none => rw [hl] at hmem; simp at hmem
    | some m =>
      rw [hl] at hmem
      simp only [Option.map_some', Option.getD_some] at hmem
      by_cases hh : hasA m sid
      · rw [if_pos hh] at hmem
        exact not_mem_keys_eraseA m sid hmem
      · rw [if_neg hh] at hmem
        have : (lookupA m sid).isSome = true := (lookupA_isSome_iff m sid).2 hmem
        rw [hasA] at hh
        exact hh this
  · intro hnone
    rw [disconnectStep]
    rw [Prod.mk.injEq]
    constructor
    · calc rooms.map (fun e => if hasA e.2 sid then (e.1, eraseA e.2 sid) else e)
          = rooms.map id := List.map_congr_left (by
            intro e he
            simp [hnone e he])
        _ = rooms := List.map_id rooms
    · rw [List.filterMap_eq_nil_iff]
      intro e he
      simp [hnone e he]

/-- Claim C5 witness: socket `B` in room `r` (alongside `A`) and absent
from room `q` disconnects: exactly one `user-disconnected` event for `r` is
emitted, `B` is gone from the registry, and a fresh socket `Z` in no room
emits nothing and changes nothing. -/
theorem c5_disconnect_witness :
    (disconnectStep [("r", [("A", "na"), ("B", "nb")]), ("q", [("A", "na")])] "B").2
      = [SEvent.userDisconnected "r" "B"]
    ∧ "B" ∉ memberIds (disconnectStep [("r", [("A", "na"), ("B", "nb")]),
        ("q", [("A", "na")])] "B").1 "r"
    ∧ disconnectStep [("r", [("A", "na"), ("B", "nb")]), ("q", [("A", "na")])] "Z"
        = ([("r", [("A", "na"), ("B", "nb")]), ("q", [("A", "na")])], []) := by
  refine ⟨by decide, ?_, ?_⟩
  · exact (c5_disconnect_synthesizes_leave
      [("r", [("A", "na"), ("B", "nb")]), ("q", [("A", "na")])] "B").2.1 "r"
  · exact (c5_disconnect_synthesizes_leave
      [("r", [("A", "na"), ("B", "nb")]), ("q", [("A", "na")])] "Z").2.2 (by decide)

/-- Claim C6 witness: with registry `r ↦ \x7bA\x7d`, a second leave of `A`
from `r` changes nothing beyond the first, and a leave naming the missing
room `q` or the non-member `B` leaves the registry untouched. -/
theorem c6_leave_idempotent_witness :
    (leaveRoomStep (leaveRoomStep [("r", [("A", "n")])] "A" (some "r")).1 "A" (some "r")).1
        = (leaveRoomStep [("r", [("A", "n")])] "A" (some "r")).1
    ∧ (leaveRoomStep [("r", [("A", "n")])] "A" (some "q")).1 = [("r", [("A", "n")])]
    ∧ (leaveRoomStep [("r", [("A", "n")])] "B" (some "r")).1 = [("r", [("A", "n")])] := by
  refine ⟨(c6_leave_idempotent_registry_noop [("r", [("A", "n")])] "A" (some "r")).1,
    (c6_leave_idempotent_registry_noop [("r", [("A", "n")])] "A" (some "q")).2.1 (by decide),
    (c6_leave_idempotent_registry_noop [("r", [("A", "n")])] "B" (some "r")).2.2
      (by decide) (by decide)⟩

/-- Claim C10 witness: joining room `Lobby` with the legacy string payload
records and broadcasts the name `Guest`. -/
theorem c10_missing_name_defaults_to_guest_witness :
    (joinRoomStep [] "A" (JoinPayload.str "Lobby")).2
      = [SEvent.existingUsers "A" [], SEvent.userConnected "lobby" "A" "A" "Guest"]
    ∧ lookupA ((lookupA (joinRoomStep [] "A" (JoinPayload.str "Lobby")).1 "lobby").getD []) "A"
        = some "Guest" := by
  have h := c10_missing_name_defaults_to_guest [] "A" "Lobby" (by decide)
  refine ⟨?_, ?_⟩
  · have h1 := h.1
    simpa using h1
  · have h2 := h.2.1
    simpa using h2

/-! ## Client lemmas -/

lemma attachOne_key (stream : List Track) (e : SocketId × PeerConn) :
    ((attachOne stream e).1).1 = e.1 := by
  simp only [attachOne]
  split_ifs <;> rfl

lemma attachOne_flag (stream : List Track) (e : SocketId × PeerConn) :
    ((attachOne stream e).1).2.addedLocalTracks = true := by
  simp only [attachOne]
  split_ifs with h1 h2
  · exact h1
  · rfl
  · rfl

lemma attachOne_of_flag (stream : List Track) (e : SocketId × PeerConn)
    (h : e.2.addedLocalTracks = true) : attachOne stream e = (e, []) := by
  simp only [attachOne]
  rw [if_pos h]

lemma lookupA_map_keyfix {κ ν : Type} [DecidableEq κ] (g : κ × ν → κ × ν)
    (hg : ∀ e, (g e).1 = e.1) (l : List (κ × ν)) (k : κ) :
    lookupA (l.map g) k = Option.map (fun v => (g (k, v)).2) (lookupA l k) := by
  induction l with
  | nil => simp [lookupA]
  | cons e t ih =>
    by_cases hk : e.1 = k
    · have h1 : (g e).1 = k := by rw [hg, hk]
      have h2 : e = (k, e.2) := by rw [← hk]
      simp only [List.map_cons, lookupA, h1, hk, if_true, Option.map_some']
      rw [← h2]
    · have h1 : ¬ (g e).1 = k := by rw [hg]; exact hk
      simp only [List.map_cons, lookupA, h1, hk, if_false, ih]

lemma lookupA_middle {κ ν : Type} [DecidableEq κ] (pre post : List (κ × ν)) (k : κ) (v : ν)
    (h : ∀ e ∈ pre, e.1 ≠ k) : lookupA (pre ++ (k, v) :: post) k = some v := by
  induction pre with
  | nil => simp [lookupA]
  | cons e t ih =>
    have he : ¬ e.1 = k := h e (by simp)
    simp only [List.cons_append, lookupA, he, if_false]
    exact ih (fun e2 he2 => h e2 (by simp [he2]))

lemma attach_of_all_flagged (st : ClientState)
    (h : ∀ e ∈ st.peers, e.2.addedLocalTracks = true) :
    addLocalTracksToAllPeers st = st := by
  cases hs : st.localStream with
  | none => simp [addLocalTracksToAllPeers, hs]
  | some s =>
    have hres : st.peers.map (attachOne s) = st.peers.map (fun e => (e, ([] : List ClientMsg))) :=
      List.map_congr_left (fun e he => attachOne_of_flag s e (h e he))
    simp only [addLocalTracksToAllPeers, hs]
    rw [hres]
    rw [List.map_map, List.map_map]
    have h1 : List.map (Prod.fst ∘ fun e : SocketId × PeerConn => (e, ([] : List ClientMsg)))
        st.peers = st.peers :=
      (List.map_congr_left (fun e _ => rfl)).trans (List.map_id _)
    have h2 : List.map (Prod.snd ∘ fun e : SocketId × PeerConn => (e, ([] : List ClientMsg)))
        st.peers = List.map (fun _ => ([] : List ClientMsg)) st.peers :=
      List.map_congr_left (fun e _ => rfl)
    have h3 : ∀ l : List (SocketId × PeerConn),
        (List.map (fun _ => ([] : List ClientMsg)) l).flatten = [] := by
      intro l
      induction l with
      | nil => rfl
      | cons => simp
    rw [h1, h2, h3, ← hs, List.append_nil]

lemma attach_idem (st : ClientState) :
    addLocalTracksToAllPeers (addLocalTracksToAllPeers st) = addLocalTracksToAllPeers st := by
  cases hs : st.localStream with
  | none =>
    have h : addLocalTracksToAllPeers st = st := by simp [addLocalTracksToAllPeers, hs]
    rw [h, h]
  | some s =>
    apply attach_of_all_flagged
    intro e he
    simp only [addLocalTracksToAllPeers, hs] at he
    rcases List.mem_map.1 he with ⟨q, hq, rfl⟩
    rcases List.mem_map.1 hq with ⟨e0, he0, rfl⟩
    exact attachOne_flag s e0

lemma offersTo_append (a b : List ClientMsg) (sid : SocketId) :
    offersTo (a ++ b) sid = offersTo a sid + offersTo b sid := by
  simp [offersTo, List.countP_append]

lemma offersTo_attachOne_ne (stream : List Track) (e : SocketId × PeerConn)
    (sid : SocketId) (h : e.1 ≠ sid) : offersTo (attachOne stream e).2 sid = 0 := by
  simp only [attachOne]
  split_ifs with h1 h2
  · simp [offersTo]
  · simp [offersTo, List.countP_cons, h]
  · simp [offersTo]

lemma offersTo_flatten_zero (stream : List Track) (l : List (SocketId × PeerConn))
    (sid : SocketId) (h : ∀ e ∈ l, e.1 ≠ sid) :
    offersTo ((l.map (fun e => (attachOne stream e).2)).flatten) sid = 0 := by
  induction l with
  | nil => simp [offersTo]
  | cons e t ih =>
    rw [List.map_cons, List.flatten_cons, offersTo_append]
    rw [offersTo_attachOne_ne stream e sid (h e (by simp)), ih (fun e2 he2 => h e2 (by simp [he2]))]

/-! ## Client theorems -/

/-- Claim C1, code evaluation at the failing input: socket `A` becomes
known through `user-connected`, a candidate `c1` arrives before any remote
description and is buffered; then an offer from `A` arrives and sets a
remote description for `A`. Afterwards the session stored under `A` has its
remote description set but an empty applied-candidate list and an empty
buffer, and no connection in the client carries any applied candidate: the
buffered `c1` was dropped, not applied exactly once, because `handleOffer`
replaces the session with a fresh record and drains only the fresh,
necessarily empty, buffer. -/
theorem c1_offer_path_drops_buffered_candidate :
    ((lookupA (runClient (initialClient none)
        [CEvent.userConnected "A" (some "n"), CEvent.iceEvt "c1" "A"]).peers "A").map
        (fun q => q.pendingIceCandidates) = some ["c1"])
    ∧ ((lookupA (runClient (initialClient none)
        [CEvent.userConnected "A" (some "n"), CEvent.iceEvt "c1" "A",
         CEvent.offerEvt "o1" "A"]).peers "A").map
        (fun q => (q.peer.remoteDescSet, q.peer.appliedCandidates, q.pendingIceCandidates))
        = some (true, [], []))
    ∧ ((runClient (initialClient none)
        [CEvent.userConnected "A" (some "n"), CEvent.iceEvt "c1" "A",
         CEvent.offerEvt "o1" "A"]).peers.map (fun e => e.2.peer.appliedCandidates)
        = [[]]) := by decide

/-- Claim C3, counterexample: a responder-side Peer Session (created by
`user-connected`, so without the negotiation handler) with local media
available: calling the attach-tracks operation twice adds the tracks
exactly once but sends zero renegotiation offers, not exactly one. -/
theorem c3_counterexample_responder_attach_sends_no_offer :
    offersTo (addLocalTracksToAllPeers (addLocalTracksToAllPeers
        { runClient (initialClient none) [CEvent.userConnected "B" (some "nb")] with
          localStream := some ["t"] })).sent "B" = 0
    ∧ (lookupA (addLocalTracksToAllPeers (addLocalTracksToAllPeers
        { runClient (initialClient none) [CEvent.userConnected "B" (some "nb")] with
          localStream := some ["t"] })).peers "B").map (fun q => q.peer.tracks)
        = some ["t"] := by decide

/-- Claim C3 (amended): for an initiator-role Peer Session (its
`onnegotiationneeded` handler installed) that has not yet attached local
tracks, with a nonempty local stream available, calling attach-tracks twice
is idempotent as a whole, adds the stream tracks to that session's native
connection exactly once, and sends exactly one renegotiation offer to that
session's remote id; a responder-role session gets the tracks but no offer. -/
theorem c3_amended_initiator_attach_idempotent_one_offer (st : ClientState)
    (sid : SocketId) (pre post : List (SocketId × PeerConn)) (pc : PeerConn)
    (stream : List Track)
    (hpeers : st.peers = pre ++ (sid, pc) :: post)
    (hpre : ∀ e ∈ pre, e.1 ≠ sid) (hpost : ∀ e ∈ post, e.1 ≠ sid)
    (hflag : pc.addedLocalTracks = false)
    (hinit : pc.peer.hasNegotiationHandler = true)
    (hstream : st.localStream = some stream) (hne : stream ≠ []) :
    addLocalTracksToAllPeers (addLocalTracksToAllPeers st) = addLocalTracksToAllPeers st
    ∧ lookupA (addLocalTracksToAllPeers st).peers sid
        = some { pc with
                 peer := { pc.peer with
                           tracks := pc.peer.tracks ++ stream,
                           localDescSet := true },
                 addedLocalTracks := true }
    ∧ offersTo (addLocalTracksToAllPeers st).sent sid = offersTo st.sent sid + 1 := by
  have hmid : attachOne stream (sid, pc)
      = ((sid, { pc with
                 peer := { pc.peer with
                           tracks := pc.peer.tracks ++ stream,
                           localDescSet := true },
                 addedLocalTracks := true }),
         [ClientMsg.offer sid pc.peer.connId]) := by
    simp only [attachOne]
    rw [if_neg (by simp [hflag])]
    rw [if_pos (by exact ⟨hinit, hne⟩)]
  refine ⟨attach_idem st, ?_, ?_⟩
  · simp only [addLocalTracksToAllPeers, hstream]
    rw [List.map_map]
    simp only [Function.comp_def]
    rw [lookupA_map_keyfix (fun e => (attachOne stream e).1) (attachOne_key stream), hpeers]
    rw [lookupA_middle pre post sid pc hpre]
    simp only [Option.map_some']
    rw [hmid]
  · simp only [addLocalTracksToAllPeers, hstream]
    rw [List.map_map, hpeers]
    rw [List.map_append, List.map_cons, List.flatten_append, List.flatten_cons]
    rw [offersTo_append, offersTo_append, offersTo_append]
    have hzpre : offersTo ((pre.map
        (Prod.snd ∘ attachOne stream)).flatten) sid = 0 := by
      have := offersTo_flatten_zero stream pre sid hpre
      simpa [Function.comp] using this
    have hzpost : offersTo ((post.map
        (Prod.snd ∘ attachOne stream)).flatten) sid = 0 := by
      have := offersTo_flatten_zero stream post sid hpost
      simpa [Function.comp] using this
    have hone : offersTo ((Prod.snd ∘ attachOne stream) (sid, pc)) sid = 1 := by
      simp only [Function.comp]
      rw [hmid]
      simp [offersTo, List.countP_cons]
    rw [hzpre, hzpost, hone]

/-- Claim C3 witness: a single initiator session toward `B`, created while
no media existed, then media `[t]` arrives: attaching twice is idempotent,
tracks end up added once and exactly one offer is sent to `B`. -/
theorem c3_amended_initiator_attach_witness :
    addLocalTracksToAllPeers (addLocalTracksToAllPeers
        { runClient (initialClient none) [CEvent.existingUsers [("B", some "nb")]] with
          localStream := some ["t"] })
      = addLocalTracksToAllPeers
        { runClient (initialClient none) [CEvent.existingUsers [("B", some "nb")]] with
          localStream := some ["t"] }
    ∧ lookupA (addLocalTracksToAllPeers
        { runClient (initialClient none) [CEvent.existingUsers [("B", some "nb")]] with
          localStream := some ["t"] }).peers "B"
        = some { peer := { connId := 0, hasNegotiationHandler := true,
                           remoteDescSet := false, localDescSet := true,
                           tracks := ["t"], appliedCandidates := [] },
                 addedLocalTracks := true, pendingIceCandidates := [],
                 displayName := some "nb" }
    ∧ offersTo (addLocalTracksToAllPeers
        { runClient (initialClient none) [CEvent.existingUsers [("B", some "nb")]] with
          localStream := some ["t"] }).sent "B"
        = offersTo ({ runClient (initialClient none)
            [CEvent.existingUsers [("B", some "nb")]] with
          localStream := some ["t"] }).sent "B" + 1 := by
  have h := c3_amended_initiator_attach_idempotent_one_offer
    { runClient (initialClient none) [CEvent.existingUsers [("B", some "nb")]] with
      localStream := some ["t"] }
    "B" []
    []
    { peer := { connId := 0, hasNegotiationHandler := true,
                remoteDescSet := false, localDescSet := false,
                tracks := [], appliedCandidates := [] },
      addedLocalTracks := false, pendingIceCandidates := [],
      displayName := some "nb" }
    ["t"]
    (by decide) (by intro e he; cases he) (by intro e he; cases he)
    (by decide) (by decide) (by decide) (by decide)
  exact ⟨h.1, by simpa using h.2.1, by simpa using h.2.2⟩

/-- Claim C9: an incoming offer from a known sender builds a brand-new
native connection (the fresh allocation counter value) and a fresh session
record with remote description set, an empty candidate buffer regardless of
what the replaced session had buffered, stores it under the sender id in
place of the old session, closes nothing, and sends exactly one answer. -/
theorem c9_offer_replaces_session_without_carryover (st : ClientState) (sdp : Sdp)
    (sender : SocketId) (old : PeerConn)
    (hold : lookupA st.peers sender = some old)
    (hfresh : old.peer.connId ≠ st.nextConnId) :
    lookupA (handleOffer st sdp sender).peers sender
      = some { peer := { connId := st.nextConnId, hasNegotiationHandler := false,
                         remoteDescSet := true, localDescSet := true,
                         tracks := st.localStream.getD [], appliedCandidates := [] },
               addedLocalTracks := st.localStream.isSome,
               pendingIceCandidates := [], displayName := none }
    ∧ (lookupA (handleOffer st sdp sender).peers sender).map (fun q => q.peer.connId)
        ≠ some old.peer.connId
    ∧ (handleOffer st sdp sender).closedConnIds = st.closedConnIds
    ∧ (handleOffer st sdp sender).sent = st.sent ++ [ClientMsg.answer sender st.nextConnId] := by
  have h1 : lookupA (handleOffer st sdp sender).peers sender
      = some { peer := { connId := st.nextConnId, hasNegotiationHandler := false,
                         remoteDescSet := true, localDescSet := true,
                         tracks := st.localStream.getD [], appliedCandidates := [] },
               addedLocalTracks := st.localStream.isSome,
               pendingIceCandidates := [], displayName := none } := by
    simp only [handleOffer]
    rw [lookupA_setA_self]
    simp
  refine ⟨h1, ?_, rfl, rfl⟩
  rw [h1]
  simp only [Option.map_some', ne_eq, Option.some.injEq]
  intro hc
  exact hfresh hc.symm

/-- Claim C9 witness: `A` is known from `user-connected` with a buffered
candidate; an offer from `A` replaces it with a fresh session with an empty
buffer and a new connection id, closing nothing. -/
theorem c9_offer_replaces_session_witness :
    lookupA (handleOffer (runClient (initialClient none)
        [CEvent.userConnected "A" (some "n"), CEvent.iceEvt "c1" "A"]) "o1" "A").peers "A"
      = some { peer := { connId := 1, hasNegotiationHandler := false,
                         remoteDescSet := true, localDescSet := true,
                         tracks := [], appliedCandidates := [] },
               addedLocalTracks := false, pendingIceCandidates := [],
               displayName := none }
    ∧ (handleOffer (runClient (initialClient none)
        [CEvent.userConnected "A" (some "n"), CEvent.iceEvt "c1" "A"]) "o1" "A").closedConnIds
      = (runClient (initialClient none)
        [CEvent.userConnected "A" (some "n"), CEvent.iceEvt "c1" "A"]).closedConnIds := by
  have h := c9_offer_replaces_session_without_carryover
    (runClient (initialClient none)
      [CEvent.userConnected "A" (some "n"), CEvent.iceEvt "c1" "A"]) "o1" "A"
    { peer := { connId := 0, hasNegotiationHandler := false,
                remoteDescSet := false, localDescSet := false,
                tracks := [], appliedCandidates := [] },
      addedLocalTracks := false, pendingIceCandidates := ["c1"],
      displayName := some "n" }
    (by decide) (by decide)
  exact ⟨by simpa using h.1, h.2.2.1⟩

end FaceToFace
